import Mathlib

/-!
Shallow embedding of `brunch-typescript` (two source variants):

* `src/index.js`        — the promise-returning variant (`TypeScriptCompiler.compile`);
* `src/unnamed/part_000` — the direct-return/throw variant (`TypeScriptCompiler.compileT`,
  constructor `TypeScriptCompiler.constructT`).

JavaScript dynamic values are embedded as `JSVal` (JSON-style values plus
`undefined`); property access on `undefined`/`null` raises, which we model via
`Except String`.  The external TypeScript transpiler, the `anymatch` matcher and
the `require`-based tsconfig read are opaque collaborators and are passed in as
oracle functions.  Promise resolution/rejection and plain return/throw are both
rendered as the common `CompileOutcome` type, one constructor per way a call can
end (pass-through, success object, joined-diagnostics failure, propagated error).
-/

/-- JavaScript runtime values, as far as this adapter manipulates them. -/
inductive JSVal where
  | undef
  | null
  | bool (b : Bool)
  | num (n : Int)
  | str (s : String)
  | arr (elems : List JSVal)
  | obj (fields : List (String × JSVal))
  deriving Repr

/-- JavaScript truthiness (`if (x)`, `x || y`).  `NaN` is not modelled. -/
def jsTruthy : JSVal → Bool
  | JSVal.undef => false
  | JSVal.null => false
  | JSVal.bool b => b
  | JSVal.num n => n != 0
  | JSVal.str s => s != ""
  | JSVal.arr _ => true
  | JSVal.obj _ => true

/-- First binding of a key in an object's field list (`undefined` if absent). -/
def getFieldList : List (String × JSVal) → String → JSVal
  | [], _ => JSVal.undef
  | (k', v') :: rest, k => if k' = k then v' else getFieldList rest k

/-- Property read `x[k]`/`x.k`: throws on `undefined`/`null`, yields the field on
objects, and `undefined` on primitives (boxing).  Named properties of arrays and
string indexing are not exercised by the adapter and are not modelled. -/
def jsGetField : JSVal → String → Except String JSVal
  | JSVal.obj fields, k => Except.ok (getFieldList fields k)
  | JSVal.undef, _ => Except.error "TypeError: Cannot read properties of undefined"
  | JSVal.null, _ => Except.error "TypeError: Cannot read properties of null"
  | _, _ => Except.ok JSVal.undef

/-- Replace the (unique) binding of `k`, or append it, preserving insertion
order as JavaScript objects do. -/
def setFieldList (fields : List (String × JSVal)) (k : String) (v : JSVal) :
    List (String × JSVal) :=
  match fields with
  | [] => [(k, v)]
  | (k', v') :: rest => if k' = k then (k, v) :: rest else (k', v') :: setFieldList rest k v

/-- Property write `x[k] = v` in strict mode ('use strict' heads both source
files): throws on `undefined`/`null` and on primitives.  Property creation on
array objects is not exercised by the adapter and is not modelled. -/
def jsSetField : JSVal → String → JSVal → Except String JSVal
  | JSVal.obj fields, k, v => Except.ok (JSVal.obj (setFieldList fields k v))
  | JSVal.undef, _, _ => Except.error "TypeError: Cannot set properties of undefined"
  | JSVal.null, _, _ => Except.error "TypeError: Cannot set properties of null"
  | _, _, _ => Except.error "TypeError: Cannot create property on a primitive"

/-- `delete x[k]` (no-op on primitives). -/
def jsDeleteField : JSVal → String → JSVal
  | JSVal.obj fields, k => JSVal.obj (fields.filter (fun kv => kv.fst != k))
  | v, _ => v

/-- `Object.keys(x)` for the object case; the adapter never enumerates
primitives or arrays with elements, so those return `[]` here. -/
def objKeys : JSVal → List String
  | JSVal.obj fields => fields.map Prod.fst
  | _ => []

/-- Digit-string value, `none` when a non-digit occurs. -/
def digitsVal (cs : List Char) : Option Nat :=
  if cs = [] then none
  else if cs.all Char.isDigit then
    some (cs.foldl (fun a c => a * 10 + (c.toNat - 48)) 0)
  else none

/-- ASCII whitespace, the only whitespace exercised by option strings. -/
def isJsSpace (c : Char) : Bool := c = ' ' || c = '\t' || c = '\n' || c = '\r'

/-- Strip leading and trailing whitespace from a character list. -/
def trimChars (cs : List Char) : List Char :=
  ((cs.dropWhile isJsSpace).reverse.dropWhile isJsSpace).reverse

/-- JavaScript string-to-number coercion restricted to the integral literals the
adapter can meet in option values (optional sign, decimal digits, surrounding
whitespace; the empty/blank string coerces to `0`).  `none` stands for `NaN`. -/
def parseJsNumber (s : String) : Option Int :=
  match trimChars s.data with
  | [] => some 0
  | '-' :: rest => (digitsVal rest).map (fun n => -(n : Int))
  | '+' :: rest => (digitsVal rest).map (fun n => (n : Int))
  | t => (digitsVal t).map (fun n => (n : Int))

/-- `Number(x)` / the value `x - 0`, with `none` for `NaN` (so `isNaN(x)` is
`(jsToNumber x).isNone`).  Object/array-to-primitive coercion is not exercised
by the adapter's callers and yields `none`. -/
def jsToNumber : JSVal → Option Int
  | JSVal.undef => none
  | JSVal.null => some 0
  | JSVal.bool b => some (if b then 1 else 0)
  | JSVal.num n => some n
  | JSVal.str s => parseJsNumber s
  | JSVal.arr _ => none
  | JSVal.obj _ => none

/-- `x.toUpperCase()` (ASCII range, which covers every enum name). -/
def jsToUpperCase (s : String) : String := String.mk (s.data.map Char.toUpper)

/-- The `for (const opt of Object.keys(opts))` loop of `resolveEnum`: first key
matching `choice.toUpperCase() === opt.toUpperCase()` wins, else the default. -/
def resolveEnumLoop (choice : String) (defaultValue : Int) :
    List (String × Int) → Int
  | [] => defaultValue
  | (opt, v) :: rest =>
    if jsToUpperCase choice = jsToUpperCase opt then v
    else resolveEnumLoop choice defaultValue rest

/-- `resolveEnum` (src/index.js lines 15-28, identical in part_000 lines 7-20).
The enum table stands for `ts.ModuleKind` / `ts.ScriptTarget` / `ts.JsxEmit` as
the iteration order of `Object.keys`.  A non-string, non-numeric truthy choice
would hit `choice.toUpperCase()` and throw, hence the `Except`. -/
def resolveEnum (choice : JSVal) (opts : List (String × Int)) : Except String Int :=
  let defaultValue : Int := 1
  if !jsTruthy choice then Except.ok defaultValue
  else
    match jsToNumber choice with
    | some n => Except.ok n
    | none =>
      match choice with
      | JSVal.str s => Except.ok (resolveEnumLoop s defaultValue opts)
      | _ => Except.error "TypeError: choice.toUpperCase is not a function"

/-- The module-level `ignoredErrors` set (src/index.js lines 7-13). -/
def ignoredErrors : List Nat := [1208, 2307, 2304, 2322, 2339]

/-- A diagnostic's `file` reference; only the private `lineMap` (line-start
offset table) is consulted by the adapter. -/
structure SourceFile where
  lineMap : Option (List Nat)
  deriving Repr, DecidableEq

/-- A compiler diagnostic as consumed by the adapter. -/
structure Diagnostic where
  code : Nat
  messageText : String
  file : Option SourceFile
  start : Nat
  deriving Repr, DecidableEq

/-- The parsed form of an emitted JSON source map (the adapter only ever reads
and rewrites `sources`); `JSON.parse`/`JSON.stringify` round-trips are modelled
structurally on this type. -/
structure SourceMap where
  version : Nat := 3
  sources : List String := []
  mappings : String := ""
  deriving Repr, DecidableEq

/-- The result object of the external single-file transpile call.
`sourceMapText = some m` models a (truthy, parseable) `sourceMapText` string
whose parse is `m`; `none` models an absent map. -/
structure TranspileOutput where
  outputText : String
  sourceMapText : Option SourceMap := none
  diagnostics : List Diagnostic := []
  deriving Repr, DecidableEq

/-- The brunch file record handed to `compile`. -/
structure FileRecord where
  path : String
  data : String
  deriving Repr, DecidableEq

/-- The success object built by `compile`; `map` carries the parsed form of the
re-serialized source map. -/
structure ResultObj where
  data : String
  map : Option SourceMap := none
  deriving Repr, DecidableEq

/-- How a `compile` call ends.  For the promise variant, `pass`/`ok` are
resolutions and `fail`/`err` rejections; for the throw variant, `pass`/`ok` are
returns, `fail` is the thrown diagnostics string and `err` a propagated error. -/
inductive CompileOutcome where
  | pass (file : FileRecord)
  | ok (result : ResultObj)
  | fail (msg : String)
  | err (e : String)
  deriving Repr, DecidableEq

/-- `findLessOrEqual`'s while loop, iterating over `haystack[1..]` with the
running index `i` (src/index.js lines 42-48). -/
def findLEAux (needle : Nat) : List Nat → Nat → Nat
  | next :: rest, i => if needle ≥ next then findLEAux needle rest (i + 1) else i
  | [], i => i

/-- `findLessOrEqual(haystack, needle)` (src/index.js lines 42-48): advance
while the next line start is still `≤ needle`; `i === haystack.length` (hence
`-1`) only happens for an empty table. -/
def findLessOrEqual (haystack : List Nat) (needle : Nat) : Int :=
  let i := findLEAux needle (haystack.drop 1) 0
  if i = haystack.length then (-1 : Int) else (i : Int)

/-- `errPos(err)` (src/index.js lines 50-60).  With an empty (still truthy)
`lineMap`, `findLessOrEqual` gives `-1`, `lineMap[-1]` is `undefined` and the
column arithmetic yields `NaN`; that corner is rendered literally. -/
def errPos (err : Diagnostic) : String :=
  match err.file with
  | some file =>
    match file.lineMap with
    | some lineMap =>
      let lineIndex := findLessOrEqual lineMap err.start
      if lineIndex = -1 then "Line: 0, Col: NaN"
      else
        let line := lineIndex + 1
        let col : Int := (err.start : Int) - (lineMap.getD lineIndex.toNat 0 : Int) + 1
        s!"Line: {line}, Col: {col}"
    | none => "No line map"
  | none => "No line map"

/-- `toMeaningfulMessage(err)` (src/index.js line 62). -/
def toMeaningfulMessage (err : Diagnostic) : String :=
  let c := err.code
  let m := err.messageText
  let p := errPos err
  s!"Error {c}: {m} ({p})"

/-- Default string conversion of the transpile result object, as produced by
the template literal fallback `${compiled.outputText || compiled}` when
`outputText` is falsy (the empty string). -/
def jsObjectString (_ : TranspileOutput) : String := "[object Object]"

/-- Lines 134-141 of src/index.js (identically lines 114-121 of part_000):
build the `{data, map?}` result from the transpile output.  The assignment
`rawMap.sources[0] = path` writes index 0 of the parsed `sources` array. -/
def mkResult (compiled : TranspileOutput) (path : String) : ResultObj :=
  let dataText := if compiled.outputText ≠ "" then compiled.outputText else jsObjectString compiled
  let result : ResultObj := { data := dataText ++ "\n" }
  match compiled.sourceMapText with
  | some rawMap => { result with map := some { rawMap with sources := path :: rawMap.sources.drop 1 } }
  | none => result

/-- The external single-file transpiler (`ts.transpileModule`), as an oracle
from `(data, fileName)` to its result; `Except.error` is a thrown exception.
The fixed compiler options of the adapter are closed over by the oracle. -/
abbrev Transpiler := String → String → Except String TranspileOutput

/-- The adapter instance state fixed by the constructor.  `ignoreErrors` holds
the numeric members of the configured suppression `Set` (only numeric elements
can ever equal a numeric diagnostic code); `pattern = some v` means the
instance pattern overrode the prototype default `/\.tsx?$/`; `targetExtension`
is set by the throw-variant constructor only. -/
structure TypeScriptCompiler where
  options : JSVal
  isIgnored : String → Bool
  ignoreAllErrors : Bool := false
  ignoreErrors : Option (List Int) := none
  pattern : Option JSVal := none
  targetExtension : Option String := none

/-- `compile(params)` of src/index.js (lines 104-145), promise variant.  A
`reject` without `return` (line 128) settles the promise first, so the
trailing `resolve(result)` is a no-op; accordingly the failure branch returns
directly here. -/
def TypeScriptCompiler.compile (self : TypeScriptCompiler) (ts : Transpiler)
    (params : FileRecord) : CompileOutcome :=
  if self.isIgnored params.path then CompileOutcome.pass params
  else
    match ts params.data params.path with
    | Except.error e => CompileOutcome.err e
    | Except.ok compiled =>
      let reportable :=
        compiled.diagnostics.filter (fun err => !(ignoredErrors.contains err.code))
      let reportable :=
        if self.ignoreAllErrors = true then []
        else
          match self.ignoreErrors with
          | some s => reportable.filter (fun err => !(s.contains (err.code : Int)))
          | none => reportable
      if reportable.length ≠ 0 then
        CompileOutcome.fail (String.intercalate "\n" (reportable.map toMeaningfulMessage))
      else
        CompileOutcome.ok (mkResult compiled params.path)

/-- Modelled from the spec: the throw variant (src/unnamed/part_000 line 2)
imports its transpile operation from the repository file `./transpile`, which
is not present under `src/`.  Spec §4.1 step 3 and §8 state that diagnostics
whose code is in the fixed ignore-set never surface even with no
`ignoreErrors` configured, and the variant's own `compile` applies no such
filter, so the missing module is modelled as the external transpiler followed
by exactly that fixed-set filtering. -/
def transpileModule (ts : Transpiler) (data fileName : String) :
    Except String TranspileOutput :=
  (ts data fileName).map fun compiled =>
    { compiled with
      diagnostics := compiled.diagnostics.filter (fun err => !(ignoredErrors.contains err.code)) }

/-- `compile(file)` of src/unnamed/part_000 (lines 94-124), direct
return/throw variant; its transpile function is passed in (the claims
instantiate it with `transpileModule`). -/
def TypeScriptCompiler.compileT (self : TypeScriptCompiler) (tsp : Transpiler)
    (file : FileRecord) : CompileOutcome :=
  if self.isIgnored file.path then CompileOutcome.pass file
  else
    match tsp file.data file.path with
    | Except.error e => CompileOutcome.err e
    | Except.ok compiled =>
      let diag := compiled.diagnostics
      let diag :=
        if self.ignoreAllErrors then []
        else
          match self.ignoreErrors with
          | some s => diag.filter (fun err => !(s.contains (err.code : Int)))
          | none => diag
      if diag.length ≠ 0 then
        CompileOutcome.fail (String.intercalate "\n" (diag.map toMeaningfulMessage))
      else
        CompileOutcome.ok (mkResult compiled file.path)

/-- Strict equality with the literal `false` (`x === false`). -/
def jsIsFalseLit : JSVal → Bool
  | JSVal.bool false => true
  | _ => false

/-- Strict equality with the literal `true` (`x === true`). -/
def jsIsTrueLit : JSVal → Bool
  | JSVal.bool true => true
  | _ => false

/-- Strict equality with a string literal (`x === 'lit'`). -/
def jsStrictEqStr : JSVal → String → Bool
  | JSVal.str s, t => s == t
  | _, _ => false

/-- `new Set(x)` followed by membership tests against numeric diagnostic
codes: `Set.has` uses SameValueZero, so only numeric elements of the iterable
can ever equal a code.  Arrays contribute their numeric elements; a string is
iterable but yields single-character strings, which never match; any other
truthy value is not iterable and `new Set(x)` throws. -/
def jsIterableNumericElements : JSVal → Except String (List Int)
  | JSVal.arr elems =>
    Except.ok (elems.filterMap (fun e => match e with | JSVal.num n => some n | _ => none))
  | JSVal.str _ => Except.ok []
  | _ => Except.error "TypeError: value is not iterable"

/-- The `config.plugins` object: only the two plugin keys the constructors
read are modelled; an absent key is `undef`. -/
structure Plugins where
  brunchTypescript : JSVal := JSVal.undef
  typescript : JSVal := JSVal.undef
  deriving Repr

/-- The `config.paths` object. -/
structure Paths where
  root : JSVal := JSVal.undef
  deriving Repr

/-- The `config.conventions` object. -/
structure Conventions where
  vendor : JSVal := JSVal.undef
  deriving Repr

/-- The brunch configuration object given to the constructor; `none` fields
model absent (`undefined`) properties. -/
structure BrunchConfig where
  plugins : Option Plugins := none
  paths : Option Paths := none
  conventions : Option Conventions := none
  sourceMaps : JSVal := JSVal.undef
  deriving Repr

/-- The `require(file)` oracle used to load `tsconfig.json`: `Except.error ()`
is a thrown exception (file missing, unreadable, or JSON parse failure), and a
success carries the parsed module value. -/
abbrev TsconfigReader := String → Except Unit JSVal

/-- `getTsconfig(configRoot)` of src/index.js (lines 30-40).  The
`path.resolve` call sits outside the `try`, so a truthy non-string root
throws; the `require` and the `.compilerOptions` read (which throws when the
parsed module is `null`) are inside it and collapse to `{}`. -/
def getTsconfig (readTs : TsconfigReader) (configRoot : JSVal) : Except String JSVal :=
  if !jsTruthy configRoot then Except.ok (JSVal.obj [])
  else
    match configRoot with
    | JSVal.str root =>
      match readTs (root ++ "/tsconfig.json") with
      | Except.error _ => Except.ok (JSVal.obj [])
      | Except.ok m =>
        match jsGetField m "compilerOptions" with
        | Except.error _ => Except.ok (JSVal.obj [])
        | Except.ok v => Except.ok v
    | _ => Except.error "TypeError: Path must be a string"

/-- `getTSconfig(config)` of src/unnamed/part_000 (lines 22-30).  Here
`config.paths.root` is dereferenced and resolved before the `try`, so a
missing `paths` object or a non-string `root` throws out of the constructor. -/
def getTSconfig (readTs : TsconfigReader) (config : BrunchConfig) : Except String JSVal := do
  let paths ← match config.paths with
    | none => Except.error "TypeError: Cannot read properties of undefined"
    | some p => Except.ok p
  let root ← match paths.root with
    | JSVal.str s => Except.ok s
    | _ => Except.error "TypeError: Path must be a string"
  match readTs (root ++ "/tsconfig.json") with
  | Except.error _ => Except.ok (JSVal.obj [])
  | Except.ok m =>
    match jsGetField m "compilerOptions" with
    | Except.error _ => Except.ok (JSVal.obj [])
    | Except.ok v => Except.ok v

/-- Lines 73-76 of src/index.js (62-65 of part_000): overlay the plugin
options onto the tsconfig-derived options, skipping `sourceMap` and `ignore`. -/
def overlayOptions (options : JSVal) (opts : JSVal) : Except String JSVal :=
  (objKeys options).foldlM
    (fun acc key =>
      if key = "sourceMap" ∨ key = "ignore" then pure acc
      else do
        let v ← jsGetField options key
        jsSetField acc key v)
    opts

/-- Lines 78-87 of src/index.js (68-77 of part_000): resolve the three enum
options, apply the decorator defaults (`!== false`), force
`noEmitOnError = false`, drop `moduleResolution`, and force `sourceMap` from
the global `config.sourceMaps` flag. -/
def normalizeOptions (moduleKind scriptTarget jsxEmit : List (String × Int))
    (sourceMaps : JSVal) (opts : JSVal) : Except String JSVal := do
  let mv ← jsGetField opts "module"
  let mr ← resolveEnum mv moduleKind
  let opts ← jsSetField opts "module" (JSVal.num mr)
  let tv ← jsGetField opts "target"
  let tr ← resolveEnum tv scriptTarget
  let opts ← jsSetField opts "target" (JSVal.num tr)
  let jv ← jsGetField opts "jsx"
  let jr ← resolveEnum jv jsxEmit
  let opts ← jsSetField opts "jsx" (JSVal.num jr)
  let edm ← jsGetField opts "emitDecoratorMetadata"
  let opts ← jsSetField opts "emitDecoratorMetadata" (JSVal.bool (!jsIsFalseLit edm))
  let exd ← jsGetField opts "experimentalDecorators"
  let opts ← jsSetField opts "experimentalDecorators" (JSVal.bool (!jsIsFalseLit exd))
  let opts ← jsSetField opts "noEmitOnError" (JSVal.bool false)
  let opts := jsDeleteField opts "moduleResolution"
  jsSetField opts "sourceMap" (JSVal.bool (jsTruthy sourceMaps))

/-- Line 70 of src/index.js:
`config.plugins && config.plugins.brunchTypescript || {}`. -/
def pluginOptionsOf (config : BrunchConfig) : JSVal :=
  let raw := match config.plugins with
    | none => JSVal.undef
    | some p => p.brunchTypescript
  if jsTruthy raw then raw else JSVal.obj []

/-- Line 71 of src/index.js: `config.paths && config.paths.root` (the falsy
`config.paths` itself collapses to `undefined` here). -/
def rootArgOf (config : BrunchConfig) : JSVal :=
  match config.paths with
  | none => JSVal.undef
  | some p => p.root

/-- Lines 88-101 of src/index.js (78-91 of part_000): build the ignore
predicate with `anymatch(options.ignore || config.conventions.vendor)` (the
`conventions` dereference throws when that object is absent and no truthy
`ignore` option was supplied), adopt a custom `pattern`, and consume
`ignoreErrors`. -/
def finishConstruction (am : JSVal → String → Bool) (options : JSVal)
    (conventions : Option Conventions) (targetExt : Option String) (opts : JSVal) :
    Except String TypeScriptCompiler := do
  let ig ← jsGetField options "ignore"
  let matchArg ←
    if jsTruthy ig then pure ig
    else
      match conventions with
      | none => Except.error "TypeError: Cannot read properties of undefined"
      | some c => pure c.vendor
  let isIgn := am matchArg
  let patv ← jsGetField opts "pattern"
  let patState := if jsTruthy patv then (some patv, jsDeleteField opts "pattern") else (none, opts)
  let patField := patState.fst
  let opts := patState.snd
  let iev ← jsGetField opts "ignoreErrors"
  if jsTruthy iev then
    if jsIsTrueLit iev then
      pure { options := jsDeleteField opts "ignoreErrors", isIgnored := isIgn,
             ignoreAllErrors := true, ignoreErrors := none, pattern := patField,
             targetExtension := targetExt }
    else do
      let codes ← jsIterableNumericElements iev
      pure { options := jsDeleteField opts "ignoreErrors", isIgnored := isIgn,
             ignoreAllErrors := false, ignoreErrors := some codes, pattern := patField,
             targetExtension := targetExt }
  else
    pure { options := opts, isIgnored := isIgn, ignoreAllErrors := false,
           ignoreErrors := none, pattern := patField, targetExtension := targetExt }

/-- The constructor of src/index.js (lines 65-102), promise variant.  `am` is
the external `anymatch` library, `readTs` the `require` of the resolved
`tsconfig.json`, and the three tables are `ts.ModuleKind`, `ts.ScriptTarget`
and `ts.JsxEmit` in `Object.keys` order. -/
def TypeScriptCompiler.construct (readTs : TsconfigReader) (am : JSVal → String → Bool)
    (moduleKind scriptTarget jsxEmit : List (String × Int))
    (config? : Option BrunchConfig) : Except String TypeScriptCompiler := do
  let config := match config? with
    | none => ({} : BrunchConfig)
    | some c => c
  let options := pluginOptionsOf config
  let tsOpts ← getTsconfig readTs (rootArgOf config)
  let opts ← overlayOptions options tsOpts
  let opts ← normalizeOptions moduleKind scriptTarget jsxEmit config.sourceMaps opts
  finishConstruction am options config.conventions none opts

/-- The constructor of src/unnamed/part_000 (lines 55-92), throw variant:
`config.plugins.typescript` and `config.paths.root` are dereferenced without
guards, and `targetExtension` is derived from the raw `jsx` option before enum
resolution. -/
def TypeScriptCompiler.constructT (readTs : TsconfigReader) (am : JSVal → String → Bool)
    (moduleKind scriptTarget jsxEmit : List (String × Int))
    (config? : Option BrunchConfig) : Except String TypeScriptCompiler := do
  let config ← match config? with
    | none => Except.error "TypeError: Cannot read properties of undefined"
    | some c => Except.ok c
  let plugins ← match config.plugins with
    | none => Except.error "TypeError: Cannot read properties of undefined"
    | some p => Except.ok p
  let options :=
    if jsTruthy plugins.typescript then plugins.typescript
    else if jsTruthy plugins.brunchTypescript then plugins.brunchTypescript
    else JSVal.obj []
  let tsOpts ← getTSconfig readTs config
  let opts ← overlayOptions options tsOpts
  let jsxRaw ← jsGetField opts "jsx"
  let targetExt := if jsStrictEqStr jsxRaw "preserve" then "jsx" else "js"
  let opts ← normalizeOptions moduleKind scriptTarget jsxEmit config.sourceMaps opts
  finishConstruction am options config.conventions (some targetExt) opts

/-! ### Helper lemmas -/

theorem resolveEnumLoop_of_no_match (s : String) (d : Int) :
    ∀ t : List (String × Int), (∀ kv ∈ t, jsToUpperCase s ≠ jsToUpperCase kv.fst) →
      resolveEnumLoop s d t = d
  | [], _ => rfl
  | (k, v) :: rest, h => by
    simp only [resolveEnumLoop]
    rw [if_neg (h (k, v) (List.mem_cons_self _ _))]
    exact resolveEnumLoop_of_no_match s d rest (fun kv hkv => h kv (List.mem_cons_of_mem _ hkv))

theorem resolveEnumLoop_first_match (s : String) (d : Int) (pre : List (String × Int))
    (k : String) (v : Int) (post : List (String × Int))
    (hpre : ∀ kv ∈ pre, jsToUpperCase s ≠ jsToUpperCase kv.fst)
    (hk : jsToUpperCase s = jsToUpperCase k) :
    resolveEnumLoop s d (pre ++ (k, v) :: post) = v := by
  induction pre with
  | nil => simp [resolveEnumLoop, hk]
  | cons kv rest ih =>
    obtain ⟨k', v'⟩ := kv
    simp only [List.cons_append, resolveEnumLoop]
    rw [if_neg (hpre (k', v') (List.mem_cons_self _ _))]
    exact ih (fun kv' h' => hpre kv' (List.mem_cons_of_mem _ h'))

theorem parseJsNumber_empty : parseJsNumber "" = some 0 := rfl

/-! ### C6 -/

/-- C6: for every enum table, `resolveEnum` returns the default code `1` when
the choice is absent or falsy; returns the numeric coercion of the choice
verbatim and unvalidated when the choice is numeric or a numeric string (so
`resolveEnum "5" = 5`); returns the table's value under the first
case-insensitive symbolic-name match otherwise; and returns the default `1`
for any unknown string, never raising an error on a string choice. -/
theorem resolveEnum_behaviour (t : List (String × Int)) :
    resolveEnum JSVal.undef t = Except.ok 1 ∧
    (∀ c : JSVal, jsTruthy c = false → resolveEnum c t = Except.ok 1) ∧
    resolveEnum (JSVal.str "5") t = Except.ok 5 ∧
    (∀ n : Int, n ≠ 0 → resolveEnum (JSVal.num n) t = Except.ok n) ∧
    (∀ s n, parseJsNumber s = some n → s ≠ "" →
      resolveEnum (JSVal.str s) t = Except.ok n) ∧
    (∀ s, parseJsNumber s = none →
      (∀ kv ∈ t, jsToUpperCase s ≠ jsToUpperCase kv.fst) →
      resolveEnum (JSVal.str s) t = Except.ok 1) ∧
    (∀ s pre k v post, parseJsNumber s = none →
      t = pre ++ (k, v) :: post →
      (∀ kv ∈ pre, jsToUpperCase s ≠ jsToUpperCase kv.fst) →
      jsToUpperCase s = jsToUpperCase k →
      resolveEnum (JSVal.str s) t = Except.ok v) ∧
    (∀ s, ∃ r, resolveEnum (JSVal.str s) t = Except.ok r) := by
  have hne : ∀ s : String, parseJsNumber s = none → s ≠ "" := by
    intro s h hs
    rw [hs, parseJsNumber_empty] at h
    exact Option.noConfusion h
  refine ⟨rfl, ?_, rfl, ?_, ?_, ?_, ?_, ?_⟩
  · intro c h
    simp [resolveEnum, h]
  · intro n hn
    simp [resolveEnum, jsTruthy, jsToNumber, hn]
  · intro s n hp hs
    simp [resolveEnum, jsTruthy, jsToNumber, hp, hs]
  · intro s hp hnm
    have hs := hne s hp
    simp [resolveEnum, jsTruthy, jsToNumber, hp, hs,
      resolveEnumLoop_of_no_match s 1 t hnm]
  · intro s pre k v post hp ht hpre hk
    have hs := hne s hp
    simp [resolveEnum, jsTruthy, jsToNumber, hp, hs, ht,
      resolveEnumLoop_first_match s 1 pre k v post hpre hk]
  · intro s
    by_cases hs : s = ""
    · exact ⟨1, by simp [resolveEnum, hs, jsTruthy]⟩
    · cases hp : parseJsNumber s with
      | some n => exact ⟨n, by simp [resolveEnum, jsTruthy, jsToNumber, hp, hs]⟩
      | none => exact ⟨resolveEnumLoop s 1 t, by simp [resolveEnum, jsTruthy, jsToNumber, hp, hs]⟩

/-- Witness for C6: concrete case-insensitive hit and concrete unknown-string
fallback. -/
theorem resolveEnum_behaviour_witness :
    resolveEnum (JSVal.str "esnext") [("ES2015", 2), ("ESNext", 99)] = Except.ok 99 ∧
    resolveEnum (JSVal.str "bogus") [("CommonJS", 1), ("ES2015", 5)] = Except.ok 1 := by
  constructor
  · exact (resolveEnum_behaviour [("ES2015", 2), ("ESNext", 99)]).2.2.2.2.2.2.1
      "esnext" [("ES2015", 2)] "ESNext" 99 [] (by decide) rfl (by decide) (by decide)
  · exact (resolveEnum_behaviour [("CommonJS", 1), ("ES2015", 5)]).2.2.2.2.2.1
      "bogus" (by decide) (by decide)

/-! ### C1 -/

/-- C1: for every file whose path matches the ignore predicate built at
construction, both compile variants return the input file unchanged
(pass-through), and the outcome is independent of the underlying transpile
operation — it is never invoked. -/
theorem compile_ignored_passthrough (self : TypeScriptCompiler)
    (ts ts' : Transpiler) (f : FileRecord) (h : self.isIgnored f.path = true) :
    self.compile ts f = CompileOutcome.pass f ∧
    self.compileT ts f = CompileOutcome.pass f ∧
    self.compile ts f = self.compile ts' f ∧
    self.compileT ts f = self.compileT ts' f := by
  simp [TypeScriptCompiler.compile, TypeScriptCompiler.compileT, h]

/-- An adapter whose ignore predicate matches every path (e.g. built from an
`ignore: '**'` option), used by concrete witnesses. -/
def ignoreAllAdapter : TypeScriptCompiler :=
  { options := JSVal.obj [], isIgnored := fun _ => true }

/-- A transpiler oracle returning a fixed output, used by concrete witnesses. -/
def constTranspiler (out : TranspileOutput) : Transpiler := fun _ _ => Except.ok out

/-- Witness for C1 at a concrete adapter, transpiler and file. -/
theorem compile_ignored_passthrough_witness :
    ignoreAllAdapter.compile (constTranspiler { outputText := "x" })
        { path := "vendor/a.ts", data := "d" }
      = CompileOutcome.pass { path := "vendor/a.ts", data := "d" } ∧
    ignoreAllAdapter.compileT (constTranspiler { outputText := "x" })
        { path := "vendor/a.ts", data := "d" }
      = CompileOutcome.pass { path := "vendor/a.ts", data := "d" } := by
  have h := compile_ignored_passthrough ignoreAllAdapter
    (constTranspiler { outputText := "x" }) (constTranspiler { outputText := "" })
    { path := "vendor/a.ts", data := "d" } rfl
  exact ⟨h.1, h.2.1⟩

/-! ### C9 -/

/-- State-passing form of the promise-variant `compile`: the method body
(src/index.js lines 104-145) contains no assignment to `this`, so in the
embedding the post-state of a call is literally its pre-state. -/
def TypeScriptCompiler.compileSt (self : TypeScriptCompiler) (ts : Transpiler)
    (params : FileRecord) : CompileOutcome × TypeScriptCompiler :=
  (self.compile ts params, self)

/-- Run a sequence of compile calls on one adapter instance, threading the
instance state from each call into the next. -/
def runCompile (self : TypeScriptCompiler) (ts : Transpiler) :
    List FileRecord → List CompileOutcome
  | [] => []
  | f :: fs =>
    let step := self.compileSt ts f
    step.fst :: runCompile step.snd ts fs

/-- C9: no compile invocation mutates the adapter state fixed at construction:
the normalized options, the ignore predicate, the pattern and the diagnostic
filter state are identical before and after every call, and a sequence of
calls on one instance therefore yields exactly the results of independent
calls on the original state — compile is deterministic and calls are
independent of prior calls. -/
theorem compile_stateless (self : TypeScriptCompiler) (ts : Transpiler) :
    (∀ f, (self.compileSt ts f).snd = self) ∧
    (∀ f, (self.compileSt ts f).snd.options = self.options ∧
          (self.compileSt ts f).snd.isIgnored = self.isIgnored ∧
          (self.compileSt ts f).snd.pattern = self.pattern ∧
          (self.compileSt ts f).snd.ignoreAllErrors = self.ignoreAllErrors ∧
          (self.compileSt ts f).snd.ignoreErrors = self.ignoreErrors) ∧
    (∀ fs, runCompile self ts fs = fs.map (fun f => self.compile ts f)) := by
  refine ⟨fun f => rfl, fun f => ⟨rfl, rfl, rfl, rfl, rfl⟩, ?_⟩
  intro fs
  induction fs with
  | nil => rfl
  | cons f fs ih => simp [runCompile, TypeScriptCompiler.compileSt, ih]

/-! ### Unfolding lemmas for the compile bodies -/

/-- The adapter's own filter state applied to a diagnostics list (the
`ignoreAllErrors` / `ignoreErrors` stage shared by both compile bodies),
factored out for proofs. -/
def applyFilterState (self : TypeScriptCompiler) (l : List Diagnostic) : List Diagnostic :=
  if self.ignoreAllErrors = true then []
  else
    match self.ignoreErrors with
    | some s => l.filter (fun err => !(s.contains (err.code : Int)))
    | none => l

theorem applyFilterState_nil (self : TypeScriptCompiler) :
    applyFilterState self [] = [] := by
  unfold applyFilterState
  split
  · rfl
  · cases self.ignoreErrors <;> rfl

theorem applyFilterState_ne_nil (self : TypeScriptCompiler) (l : List Diagnostic)
    (h : applyFilterState self l ≠ []) : l ≠ [] := by
  intro hl
  subst hl
  exact h (applyFilterState_nil self)

theorem compile_of_ok (self : TypeScriptCompiler) (ts : Transpiler) (f : FileRecord)
    (out : TranspileOutput) (hts : ts f.data f.path = Except.ok out)
    (hig : self.isIgnored f.path = false) :
    self.compile ts f =
      if (applyFilterState self
            (out.diagnostics.filter (fun err => !(ignoredErrors.contains err.code)))).length ≠ 0
      then CompileOutcome.fail (String.intercalate "\n"
        ((applyFilterState self
            (out.diagnostics.filter (fun err => !(ignoredErrors.contains err.code)))).map
          toMeaningfulMessage))
      else CompileOutcome.ok (mkResult out f.path) := by
  simp only [TypeScriptCompiler.compile, hig, Bool.false_eq_true, if_false, hts]
  rfl

theorem compileT_of_ok (self : TypeScriptCompiler) (tsp : Transpiler) (f : FileRecord)
    (out : TranspileOutput) (hts : tsp f.data f.path = Except.ok out)
    (hig : self.isIgnored f.path = false) :
    self.compileT tsp f =
      if (applyFilterState self out.diagnostics).length ≠ 0
      then CompileOutcome.fail (String.intercalate "\n"
        ((applyFilterState self out.diagnostics).map toMeaningfulMessage))
      else CompileOutcome.ok (mkResult out f.path) := by
  simp only [TypeScriptCompiler.compileT, hig, Bool.false_eq_true, if_false, hts]
  rfl

theorem compile_of_error (self : TypeScriptCompiler) (ts : Transpiler) (f : FileRecord)
    (e : String) (hts : ts f.data f.path = Except.error e)
    (hig : self.isIgnored f.path = false) :
    self.compile ts f = CompileOutcome.err e := by
  simp only [TypeScriptCompiler.compile, hig, Bool.false_eq_true, if_false, hts]

theorem compileT_of_error (self : TypeScriptCompiler) (tsp : Transpiler) (f : FileRecord)
    (e : String) (hts : tsp f.data f.path = Except.error e)
    (hig : self.isIgnored f.path = false) :
    self.compileT tsp f = CompileOutcome.err e := by
  simp only [TypeScriptCompiler.compileT, hig, Bool.false_eq_true, if_false, hts]

theorem transpileModule_of_ok (ts : Transpiler) (dat pth : String) (out : TranspileOutput)
    (hts : ts dat pth = Except.ok out) :
    transpileModule ts dat pth =
      Except.ok { out with diagnostics :=
        out.diagnostics.filter (fun err => !(ignoredErrors.contains err.code)) } := by
  unfold transpileModule
  rw [hts]
  rfl

/-! ### C2 -/

/-- An adapter with no configured filter state whose ignore predicate matches
nothing, used by concrete witnesses. -/
def plainAdapter : TypeScriptCompiler :=
  { options := JSVal.obj [], isIgnored := fun _ => false }

/-- A transpile output whose only diagnostic carries the fixed-set code 2307. -/
def onlyFixedDiagOut : TranspileOutput :=
  { outputText := "var x;",
    diagnostics := [{ code := 2307, messageText := "Cannot find module", file := none, start := 0 }] }

/-- C2: a diagnostic whose numeric code is in the fixed ignore-set
`{1208, 2307, 2304, 2322, 2339}` never causes a compile call to fail, whatever
filter state was configured (in particular with no `ignoreErrors` option): if
every diagnostic of the transpile output has its code in the fixed set,
neither variant fails, and any failing call was caused by a diagnostic outside
the fixed set.  (The throw variant runs with the spec-modelled
`transpileModule`.) -/
theorem fixed_ignored_codes_never_fail (self : TypeScriptCompiler) (ts : Transpiler)
    (f : FileRecord) (out : TranspileOutput)
    (hts : ts f.data f.path = Except.ok out) :
    ((∀ d ∈ out.diagnostics, d.code ∈ ignoredErrors) →
      (∀ msg, self.compile ts f ≠ CompileOutcome.fail msg) ∧
      (∀ msg, self.compileT (transpileModule ts) f ≠ CompileOutcome.fail msg)) ∧
    (∀ msg, self.compile ts f = CompileOutcome.fail msg →
      ∃ d ∈ out.diagnostics, d.code ∉ ignoredErrors) ∧
    (∀ msg, self.compileT (transpileModule ts) f = CompileOutcome.fail msg →
      ∃ d ∈ out.diagnostics, d.code ∉ ignoredErrors) := by
  have hmod := transpileModule_of_ok ts f.data f.path out hts
  have hr0nil : (∀ d ∈ out.diagnostics, d.code ∈ ignoredErrors) →
      out.diagnostics.filter (fun err => !(ignoredErrors.contains err.code)) = [] := by
    intro hall
    refine List.filter_eq_nil_iff.mpr ?_
    intro d hd
    simpa using hall d hd
  have hr0ne : out.diagnostics.filter (fun err => !(ignoredErrors.contains err.code)) ≠ [] →
      ∃ d ∈ out.diagnostics, d.code ∉ ignoredErrors := by
    intro hne
    rcases List.exists_mem_of_ne_nil _ hne with ⟨d, hd⟩
    rcases List.mem_filter.mp hd with ⟨hmem, hp⟩
    rw [Bool.not_eq_true'] at hp
    refine ⟨d, hmem, ?_⟩
    intro hin
    have hc : ignoredErrors.contains d.code = true := List.elem_iff.mpr hin
    rw [hp] at hc
    exact Bool.false_ne_true hc
  constructor
  · intro hall
    have h0 := hr0nil hall
    constructor
    · intro msg
      by_cases hig : self.isIgnored f.path
      · simp [TypeScriptCompiler.compile, hig]
      · rw [compile_of_ok self ts f out hts (by simpa using hig), h0,
          applyFilterState_nil]
        simp
    · intro msg
      by_cases hig : self.isIgnored f.path
      · simp [TypeScriptCompiler.compileT, hig]
      · rw [compileT_of_ok self (transpileModule ts) f _ hmod (by simpa using hig)]
        simp only [h0, applyFilterState_nil]
        simp
  · constructor
    · intro msg hfl
      by_cases hig : self.isIgnored f.path
      · simp [TypeScriptCompiler.compile, hig] at hfl
      · rw [compile_of_ok self ts f out hts (by simpa using hig)] at hfl
        apply hr0ne
        apply applyFilterState_ne_nil self
        intro hnil
        rw [hnil] at hfl
        simp at hfl
    · intro msg hfl
      by_cases hig : self.isIgnored f.path
      · simp [TypeScriptCompiler.compileT, hig] at hfl
      · rw [compileT_of_ok self (transpileModule ts) f _ hmod (by simpa using hig)] at hfl
        apply hr0ne
        apply applyFilterState_ne_nil self
        intro hnil
        simp only [hnil] at hfl
        simp at hfl

/-- Witness for C2: a transpile output carrying only a code-2307 diagnostic
(in the fixed ignore-set) fails neither variant even with no filter state. -/
theorem fixed_ignored_codes_never_fail_witness :
    (∀ msg, plainAdapter.compile (constTranspiler onlyFixedDiagOut)
      { path := "a.ts", data := "x" } ≠ CompileOutcome.fail msg) ∧
    (∀ msg, plainAdapter.compileT (transpileModule (constTranspiler onlyFixedDiagOut))
      { path := "a.ts", data := "x" } ≠ CompileOutcome.fail msg) :=
  (fixed_ignored_codes_never_fail plainAdapter (constTranspiler onlyFixedDiagOut)
    { path := "a.ts", data := "x" } onlyFixedDiagOut rfl).1 (by decide)

/-! ### C3 -/

/-- A `require` oracle for an absent (or unparseable) `tsconfig.json`. -/
def noTsconfig : TsconfigReader := fun _ => Except.error ()

/-- A brunch config whose plugin options carry just an `ignoreErrors` value. -/
def pluginConfig (ie : JSVal) (vendor : JSVal) : BrunchConfig :=
  { plugins := some { brunchTypescript := JSVal.obj [("ignoreErrors", ie)] },
    conventions := some { vendor := vendor } }

/-- The normalized options mapping produced from empty tsconfig and no
compiler-relevant plugin options. -/
def normalizedBaseOpts : JSVal := JSVal.obj
  [("module", JSVal.num 1), ("target", JSVal.num 1), ("jsx", JSVal.num 1),
   ("emitDecoratorMetadata", JSVal.bool true), ("experimentalDecorators", JSVal.bool true),
   ("noEmitOnError", JSVal.bool false), ("sourceMap", JSVal.bool false)]

theorem filterMap_num_map (codes : List Int) :
    (codes.map JSVal.num).filterMap
      (fun e => match e with | JSVal.num n => some n | _ => none) = codes := by
  induction codes with
  | nil => rfl
  | cons c rest ih => simp [List.filterMap_cons, ih]

/-- C3: if the construction-time option `ignoreErrors` is the literal `true`,
the constructed adapter suppresses every diagnostic regardless of code (no
compile call can fail); if it is a list of numeric codes, the adapter's
suppression set is exactly that list, and a compile call fails precisely when
some diagnostic survives both the fixed ignore-set and that list.  (Promise
variant, whose constructor and compile the claim cites.) -/
theorem ignoreErrors_option_behaviour (am : JSVal → String → Bool)
    (mk st jx : List (String × Int)) (vendor : JSVal) :
    (∀ self, TypeScriptCompiler.construct noTsconfig am mk st jx
        (some (pluginConfig (JSVal.bool true) vendor)) = Except.ok self →
      self.ignoreAllErrors = true ∧
      ∀ ts f msg, self.compile ts f ≠ CompileOutcome.fail msg) ∧
    (∀ (codes : List Int) self,
      TypeScriptCompiler.construct noTsconfig am mk st jx
        (some (pluginConfig (JSVal.arr (codes.map JSVal.num)) vendor)) = Except.ok self →
      self.ignoreErrors = some codes ∧ self.ignoreAllErrors = false ∧
      ∀ ts f out, ts f.data f.path = Except.ok out → self.isIgnored f.path = false →
        ((∃ msg, self.compile ts f = CompileOutcome.fail msg) ↔
          ∃ d ∈ out.diagnostics, d.code ∉ ignoredErrors ∧ ((d.code : Int) ∉ codes))) := by
  constructor
  · intro self h
    have hc : TypeScriptCompiler.construct noTsconfig am mk st jx
        (some (pluginConfig (JSVal.bool true) vendor)) =
      Except.ok { options := normalizedBaseOpts, isIgnored := am vendor,
                  ignoreAllErrors := true, ignoreErrors := none, pattern := none,
                  targetExtension := none } := rfl
    rw [hc] at h
    have hself := Except.ok.inj h
    subst hself
    refine ⟨rfl, ?_⟩
    intro ts f msg
    by_cases hig : (fun p => am vendor p) f.path
    · simp [TypeScriptCompiler.compile, hig]
    · cases hts : ts f.data f.path with
      | error e =>
        rw [compile_of_error _ ts f e hts (by simpa using hig)]
        simp
      | ok out =>
        rw [compile_of_ok _ ts f out hts (by simpa using hig)]
        have : applyFilterState
            { options := normalizedBaseOpts, isIgnored := am vendor,
              ignoreAllErrors := true, ignoreErrors := none, pattern := none,
              targetExtension := none }
            (out.diagnostics.filter (fun err => !(ignoredErrors.contains err.code))) = [] := by
          unfold applyFilterState
          simp
        rw [this]
        simp
  · intro codes self h
    have hc : TypeScriptCompiler.construct noTsconfig am mk st jx
        (some (pluginConfig (JSVal.arr (codes.map JSVal.num)) vendor)) =
      Except.ok { options := normalizedBaseOpts, isIgnored := am vendor,
                  ignoreAllErrors := false,
                  ignoreErrors := some ((codes.map JSVal.num).filterMap
                    (fun e => match e with | JSVal.num n => some n | _ => none)),
                  pattern := none, targetExtension := none } := rfl
    rw [hc] at h
    have hself := Except.ok.inj h
    subst hself
    rw [filterMap_num_map]
    refine ⟨rfl, rfl, ?_⟩
    intro ts f out hts hig
    rw [compile_of_ok _ ts f out hts hig]
    have happ : applyFilterState
        { options := normalizedBaseOpts, isIgnored := am vendor,
          ignoreAllErrors := false, ignoreErrors := some codes, pattern := none,
          targetExtension := none }
        (out.diagnostics.filter (fun err => !(ignoredErrors.contains err.code)))
        = (out.diagnostics.filter (fun err => !(ignoredErrors.contains err.code))).filter
            (fun err => !(codes.contains (err.code : Int))) := by
      unfold applyFilterState
      simp
    rw [happ]
    constructor
    · rintro ⟨msg, hmsg⟩
      by_cases hlen : ((out.diagnostics.filter
          (fun err => !(ignoredErrors.contains err.code))).filter
            (fun err => !(codes.contains (err.code : Int)))).length ≠ 0
      · have hne : (out.diagnostics.filter
            (fun err => !(ignoredErrors.contains err.code))).filter
              (fun err => !(codes.contains (err.code : Int))) ≠ [] := by
          intro hnil
          apply hlen
          rw [hnil]
          rfl
        rcases List.exists_mem_of_ne_nil _ hne with ⟨d, hd⟩
        rcases List.mem_filter.mp hd with ⟨hd1, hp2⟩
        rcases List.mem_filter.mp hd1 with ⟨hmem, hp1⟩
        rw [Bool.not_eq_true'] at hp1 hp2
        refine ⟨d, hmem, ?_, ?_⟩
        · intro hin
          have hc : ignoredErrors.contains d.code = true := List.elem_iff.mpr hin
          rw [hp1] at hc
          exact Bool.false_ne_true hc
        · intro hin
          have hc : codes.contains (d.code : Int) = true := List.elem_iff.mpr hin
          rw [hp2] at hc
          exact Bool.false_ne_true hc
      · rw [if_neg hlen] at hmsg
        exact CompileOutcome.noConfusion hmsg
    · rintro ⟨d, hmem, hni, hnc⟩
      have hd : d ∈ (out.diagnostics.filter
          (fun err => !(ignoredErrors.contains err.code))).filter
            (fun err => !(codes.contains (err.code : Int))) := by
        refine List.mem_filter.mpr ⟨List.mem_filter.mpr ⟨hmem, ?_⟩, ?_⟩
        · simpa using hni
        · simpa using hnc
      have hlen : ((out.diagnostics.filter
          (fun err => !(ignoredErrors.contains err.code))).filter
            (fun err => !(codes.contains (err.code : Int)))).length ≠ 0 := by
        intro h0
        rw [List.length_eq_zero] at h0
        rw [h0] at hd
        exact List.not_mem_nil d hd
      rw [if_pos hlen]
      exact ⟨_, rfl⟩

/-- A concrete file record for witnesses. -/
def fileW : FileRecord := { path := "a.ts", data := "x" }

/-- A transpile output carrying one diagnostic with (non-fixed) code 7. -/
def diag7Out : TranspileOutput :=
  { outputText := "var x;",
    diagnostics := [{ code := 7, messageText := "m7", file := none, start := 0 }] }

/-- A transpile output carrying one diagnostic with (non-fixed) code 9999. -/
def diag9999Out : TranspileOutput :=
  { outputText := "var x;",
    diagnostics := [{ code := 9999, messageText := "m9999", file := none, start := 0 }] }

/-- The adapter built with `ignoreErrors: true`. -/
def adapterIgnoreAllW : TypeScriptCompiler :=
  match TypeScriptCompiler.construct noTsconfig (fun _ _ => false) [] [] []
      (some (pluginConfig (JSVal.bool true) (JSVal.str "v"))) with
  | Except.ok a => a
  | Except.error _ => { options := JSVal.obj [], isIgnored := fun _ => false }

/-- The adapter built with `ignoreErrors: [7]`. -/
def adapterCodesW : TypeScriptCompiler :=
  match TypeScriptCompiler.construct noTsconfig (fun _ _ => false) [] [] []
      (some (pluginConfig (JSVal.arr [JSVal.num 7]) (JSVal.str "v"))) with
  | Except.ok a => a
  | Except.error _ => { options := JSVal.obj [], isIgnored := fun _ => false }

/-- Witness for C3: with `ignoreErrors: true` a code-9999 diagnostic does not
fail the call; with `ignoreErrors: [7]` a code-7 diagnostic does not fail the
call but a code-9999 one does. -/
theorem ignoreErrors_option_behaviour_witness :
    (∀ msg, adapterIgnoreAllW.compile (constTranspiler diag9999Out) fileW
      ≠ CompileOutcome.fail msg) ∧
    (¬ ∃ msg, adapterCodesW.compile (constTranspiler diag7Out) fileW
      = CompileOutcome.fail msg) ∧
    (∃ msg, adapterCodesW.compile (constTranspiler diag9999Out) fileW
      = CompileOutcome.fail msg) := by
  have h := ignoreErrors_option_behaviour (fun _ _ => false) [] [] [] (JSVal.str "v")
  refine ⟨?_, ?_, ?_⟩
  · intro msg
    exact (h.1 adapterIgnoreAllW rfl).2 (constTranspiler diag9999Out) fileW msg
  · rintro ⟨msg, hm⟩
    have hiff := (h.2 [7] adapterCodesW rfl).2.2 (constTranspiler diag7Out) fileW diag7Out
      rfl rfl
    rcases hiff.mp ⟨msg, hm⟩ with ⟨d, hd, _, hnc⟩
    have hd7 : d = { code := 7, messageText := "m7", file := none, start := 0 } := by
      simpa [diag7Out] using hd
    rw [hd7] at hnc
    exact hnc (by decide)
  · have hiff := (h.2 [7] adapterCodesW rfl).2.2 (constTranspiler diag9999Out) fileW
      diag9999Out rfl rfl
    exact hiff.mpr ⟨{ code := 9999, messageText := "m9999", file := none, start := 0 },
      by decide, by decide, by decide⟩

/-! ### C4 -/

/-- Counterexample for C4: a call with zero diagnostics whose emitted output
text is the empty string (e.g. an empty source file).  The claim says `data`
is the emitted text followed by one newline, i.e. `"\n"`; the code's
template-literal fallback `${compiled.outputText || compiled}` stringifies
the whole result object instead, yielding `"[object Object]\n"`. -/
theorem output_data_shape_counterexample :
    plainAdapter.compile (constTranspiler { outputText := "" }) fileW
      = CompileOutcome.ok { data := "[object Object]\n", map := none } ∧
    "[object Object]\n" ≠ "" ++ "\n" := by
  constructor
  · rfl
  · decide

/-- C4 (amended): with zero remaining diagnostics after filtering, both
variants resolve with the built result object; its `data` field is the
emitted output text followed by exactly one trailing newline whenever the
emitted text is nonempty, and the object-stringification fallback
`"[object Object]" + "\n"` when the emitted text is the (falsy) empty string;
when the transpiler emitted no source map there is no `map` field, and when
it emitted one the attached map is the re-serialized map whose `sources[0]`
has been rewritten to equal the input path exactly. -/
theorem output_data_shape (self : TypeScriptCompiler) (ts : Transpiler) (f : FileRecord)
    (out : TranspileOutput) (hts : ts f.data f.path = Except.ok out)
    (hig : self.isIgnored f.path = false)
    (hnil : applyFilterState self
      (out.diagnostics.filter (fun err => !(ignoredErrors.contains err.code))) = []) :
    (self.compile ts f = CompileOutcome.ok (mkResult out f.path)) ∧
    (applyFilterState self out.diagnostics = [] →
      self.compileT ts f = CompileOutcome.ok (mkResult out f.path)) ∧
    (out.outputText ≠ "" → (mkResult out f.path).data = out.outputText ++ "\n") ∧
    (out.outputText = "" → (mkResult out f.path).data = "[object Object]\n") ∧
    (out.sourceMapText = none → (mkResult out f.path).map = none) ∧
    (∀ m, out.sourceMapText = some m →
      (mkResult out f.path).map = some { m with sources := f.path :: m.sources.drop 1 } ∧
      ∀ m', (mkResult out f.path).map = some m' → m'.sources.head? = some f.path) := by
  refine ⟨?_, ?_, ?_, ?_, ?_, ?_⟩
  · rw [compile_of_ok self ts f out hts hig, hnil]
    simp
  · intro hnilT
    rw [compileT_of_ok self ts f out hts hig, hnilT]
    simp
  · intro hne
    unfold mkResult
    cases out.sourceMapText <;> simp [hne]
  · intro hemp
    unfold mkResult
    cases out.sourceMapText <;> simp [hemp, jsObjectString]
  · intro hnone
    unfold mkResult
    rw [hnone]
  · intro m hm
    unfold mkResult
    rw [hm]
    constructor
    · rfl
    · intro m' hm'
      cases hm'
      rfl

/-- A concrete transpile output with a source map, for the C4 witness. -/
def mappedOutW : TranspileOutput :=
  { outputText := "var x;\n",
    sourceMapText := some { sources := ["tmp.ts"], mappings := "AAAA" } }

/-- Witness for C4 (amended claim) at a concrete adapter, output and map. -/
theorem output_data_shape_witness :
    plainAdapter.compile (constTranspiler mappedOutW) fileW
      = CompileOutcome.ok
          { data := "var x;\n\n", map := some { sources := ["a.ts"], mappings := "AAAA" } } ∧
    "var x;\n\n" = "var x;\n" ++ "\n" := by
  have h := output_data_shape plainAdapter (constTranspiler mappedOutW) fileW mappedOutW
    rfl rfl rfl
  exact ⟨h.1, rfl⟩

/-! ### C5 -/

/-- Length of the prefix of `xs` whose elements are `≤ n` (where the while
loop of `findLessOrEqual` stops). -/
def leCount (n : Nat) : List Nat → Nat
  | [] => 0
  | x :: xs => if x ≤ n then leCount n xs + 1 else 0

theorem findLEAux_eq (n : Nat) : ∀ (xs : List Nat) (i : Nat),
    findLEAux n xs i = i + leCount n xs
  | [], i => by simp [findLEAux, leCount]
  | x :: xs, i => by
    by_cases hx : x ≤ n
    · have hg : n ≥ x := hx
      rw [findLEAux, if_pos hg, findLEAux_eq n xs (i + 1), leCount, if_pos hx]
      omega
    · have hg : ¬ n ≥ x := hx
      rw [findLEAux, if_neg hg, leCount, if_neg hx]
      omega

theorem leCount_le_length (n : Nat) : ∀ xs : List Nat, leCount n xs ≤ xs.length
  | [] => Nat.le_refl 0
  | x :: xs => by
    rw [leCount]
    by_cases hx : x ≤ n
    · rw [if_pos hx]
      simpa using leCount_le_length n xs
    · rw [if_neg hx]
      simp

theorem leCount_spec (n : Nat) : ∀ (xs : List Nat), xs.Pairwise (· < ·) →
    ∀ (j : Nat) (hj : j < xs.length), (xs.get ⟨j, hj⟩ ≤ n ↔ j < leCount n xs)
  | [], _, j, hj => absurd hj (by simp)
  | x :: xs, hp, j, hj => by
    rcases List.pairwise_cons.mp hp with ⟨hlt, htail⟩
    by_cases hx : x ≤ n
    · rw [leCount, if_pos hx]
      cases j with
      | zero => simpa using hx
      | succ k =>
        have hk : k < xs.length := by simpa using hj
        have ih := leCount_spec n xs htail k hk
        simpa using ih
    · rw [leCount, if_neg hx]
      cases j with
      | zero => simpa using hx
      | succ k =>
        have hk : k < xs.length := by simpa using hj
        have hgs : (x :: xs).get ⟨k + 1, hj⟩ = xs.get ⟨k, hk⟩ := rfl
        have hmem : xs.get ⟨k, hk⟩ ∈ xs := List.get_mem xs k hk
        have hxlt := hlt _ hmem
        rw [hgs]
        omega

/-- `findLessOrEqual` on a sorted nonempty table whose first entry is
`≤ needle` returns (as a nonnegative index) the largest index whose entry is
`≤ needle`. -/
theorem findLessOrEqual_largest (L : List Nat) (n : Nat)
    (hs : L.Pairwise (· < ·)) (hne : L ≠ []) (h0 : L.getD 0 0 ≤ n) :
    ∃ i : Nat, i < L.length ∧ findLessOrEqual L n = (i : Int) ∧
      L.getD i 0 ≤ n ∧ (∀ j, j < L.length → L.getD j 0 ≤ n → j ≤ i) := by
  rcases L with _ | ⟨h, rest⟩
  · exact absurd rfl hne
  · have hpr : rest.Pairwise (· < ·) := (List.pairwise_cons.mp hs).2
    have hc : findLEAux n ((h :: rest).drop 1) 0 = leCount n rest := by
      rw [List.drop_one, List.tail_cons, findLEAux_eq]
      omega
    have hlen : leCount n rest < (h :: rest).length := by
      have := leCount_le_length n rest
      simp only [List.length_cons]
      omega
    refine ⟨leCount n rest, hlen, ?_, ?_, ?_⟩
    · unfold findLessOrEqual
      rw [hc, if_neg (by omega)]
    · cases hcz : leCount n rest with
      | zero => simpa using h0
      | succ k =>
        have hk : k < rest.length := by
          have := leCount_le_length n rest
          omega
        have := (leCount_spec n rest hpr k hk).mpr (by omega)
        have hget : (h :: rest).getD (k + 1) 0 = rest.get ⟨k, hk⟩ := by
          rw [List.getD_cons_succ]
          exact List.getD_eq_get rest 0 hk
        rw [hget]
        exact this
    · intro j hj hle
      cases j with
      | zero => exact Nat.zero_le _
      | succ k =>
        have hk : k < rest.length := by simpa using hj
        have hget : (h :: rest).getD (k + 1) 0 = rest.get ⟨k, hk⟩ := by
          rw [List.getD_cons_succ]
          exact List.getD_eq_get rest 0 hk
        rw [hget] at hle
        have := (leCount_spec n rest hpr k hk).mp hle
        omega

/-- The `Line: L, Col: C` position string. -/
def linePos (line col : Int) : String := s!"Line: {line}, Col: {col}"

/-- The `Error <code>: <messageText> (<position>)` message format. -/
def errorMessageFormat (code : Nat) (messageText position : String) : String :=
  s!"Error {code}: {messageText} ({position})"

/-- C5: every surviving diagnostic is rendered as
`Error <code>: <messageText> (<position>)`; the position is `Line: L, Col: C`
(1-based) with the line index found as the largest line-start offset `≤` the
diagnostic's character offset in the file's line-start table, or the literal
`No line map` when the diagnostic carries no file or the file has no line
map; and the failure message of a compile call is the newline-join of the
per-diagnostic messages of the diagnostics surviving the filters. -/
theorem diagnostic_message_format (self : TypeScriptCompiler) (ts : Transpiler)
    (f : FileRecord) (out : TranspileOutput)
    (hts : ts f.data f.path = Except.ok out) :
    (∀ err : Diagnostic, toMeaningfulMessage err
        = errorMessageFormat err.code err.messageText (errPos err)) ∧
    (∀ err : Diagnostic, err.file = none → errPos err = "No line map") ∧
    (∀ (err : Diagnostic) sf, err.file = some sf → sf.lineMap = none →
      errPos err = "No line map") ∧
    (∀ (err : Diagnostic) sf L, err.file = some sf → sf.lineMap = some L →
      L.Pairwise (· < ·) → L ≠ [] → L.getD 0 0 ≤ err.start →
      ∃ i : Nat, i < L.length ∧ L.getD i 0 ≤ err.start ∧
        (∀ j, j < L.length → L.getD j 0 ≤ err.start → j ≤ i) ∧
        errPos err = linePos ((i : Int) + 1)
          ((err.start : Int) - (L.getD i 0 : Int) + 1)) ∧
    (∀ msg, self.compile ts f = CompileOutcome.fail msg →
      msg = String.intercalate "\n"
        ((applyFilterState self
          (out.diagnostics.filter (fun err => !(ignoredErrors.contains err.code)))).map
            toMeaningfulMessage)) := by
  refine ⟨fun err => rfl, ?_, ?_, ?_, ?_⟩
  · intro err h
    simp only [errPos, h]
  · intro err sf h1 h2
    simp only [errPos, h1, h2]
  · intro err sf L h1 h2 hs hne h0
    rcases findLessOrEqual_largest L err.start hs hne h0 with ⟨i, hi, hfe, hle, hmax⟩
    refine ⟨i, hi, hle, hmax, ?_⟩
    simp only [errPos, h1, h2, hfe]
    rw [if_neg (by omega)]
    simp [linePos, Int.toNat_ofNat]
  · intro msg hfl
    by_cases hig : self.isIgnored f.path
    · simp [TypeScriptCompiler.compile, hig] at hfl
    · rw [compile_of_ok self ts f out hts (by simpa using hig)] at hfl
      by_cases hlen : (applyFilterState self
          (out.diagnostics.filter (fun err => !(ignoredErrors.contains err.code)))).length ≠ 0
      · rw [if_pos hlen] at hfl
        exact (CompileOutcome.fail.inj hfl).symm
      · rw [if_neg hlen] at hfl
        exact absurd hfl (by simp)

/-- A diagnostic carrying a file with line-start table `[0, 10, 20]` and
character offset 15 (line 2, column 6). -/
def diagW : Diagnostic :=
  { code := 2345, messageText := "boom",
    file := some { lineMap := some [0, 10, 20] }, start := 15 }

/-- A diagnostic without a file reference. -/
def noFileDiagW : Diagnostic := { code := 1, messageText := "m", file := none, start := 0 }

/-- Witness for C5: `No line map`, the largest-index position search, and the
joined failure message, all at concrete inputs. -/
theorem diagnostic_message_format_witness :
    errPos noFileDiagW = "No line map" ∧
    (∃ i : Nat, i < 3 ∧ ([0, 10, 20] : List Nat).getD i 0 ≤ 15 ∧
      (∀ j, j < 3 → ([0, 10, 20] : List Nat).getD j 0 ≤ 15 → j ≤ i) ∧
      errPos diagW = linePos ((i : Int) + 1)
        ((15 : Int) - (([0, 10, 20] : List Nat).getD i 0 : Int) + 1)) ∧
    ("Error 9999: m9999 (No line map)" = String.intercalate "\n"
      ((applyFilterState plainAdapter
        (diag9999Out.diagnostics.filter
          (fun err => !(ignoredErrors.contains err.code)))).map toMeaningfulMessage)) := by
  have h := diagnostic_message_format plainAdapter (constTranspiler diag9999Out) fileW
    diag9999Out rfl
  refine ⟨h.2.1 noFileDiagW rfl, ?_, ?_⟩
  · exact h.2.2.2.1 diagW { lineMap := some [0, 10, 20] } [0, 10, 20] rfl rfl
      (by decide) (by decide) (by decide)
  · exact h.2.2.2.2 "Error 9999: m9999 (No line map)" (by decide)

/-! ### C7 -/

/-- A config with a `plugins` object and conventions but no `paths` object. -/
def noPathsConfig : BrunchConfig :=
  { plugins := some {}, conventions := some { vendor := JSVal.str "v" } }

/-- Counterexample for C7: in the throw variant a missing config-root
(`config.paths` absent) is dereferenced by `path.resolve` outside the `try`,
so construction throws instead of absorbing it as empty options. -/
theorem tsconfig_absorbed_counterexample :
    TypeScriptCompiler.constructT noTsconfig (fun _ _ => false) [] [] []
        (some noPathsConfig)
      = Except.error "TypeError: Cannot read properties of undefined" := rfl

theorem exceptOkBind {ε α β : Type} (x : α) (f : α → Except ε β) :
    (Except.ok x >>= f) = f x := rfl

theorem exceptErrorBind {ε α β : Type} (e : ε) (f : α → Except ε β) :
    ((Except.error e : Except ε α) >>= f) = Except.error e := rfl

/-- C7 (amended): a missing, unlocatable or unparseable `tsconfig.json` is
absorbed as an empty options mapping in both variants, and in the promise
variant a missing config-root path is absorbed the same way, so there
construction never fails for these reasons; in the throw variant, however, a
missing `config.paths` throws at construction (see the counterexample). -/
theorem tsconfig_absorbed (readTs : TsconfigReader) :
    (∀ root, jsTruthy root = false → getTsconfig readTs root = Except.ok (JSVal.obj [])) ∧
    (∀ s, s ≠ "" → readTs (s ++ "/tsconfig.json") = Except.error () →
      getTsconfig readTs (JSVal.str s) = Except.ok (JSVal.obj [])) ∧
    (∀ (config : BrunchConfig) (p : Paths) s, config.paths = some p →
      p.root = JSVal.str s → readTs (s ++ "/tsconfig.json") = Except.error () →
      getTSconfig readTs config = Except.ok (JSVal.obj [])) ∧
    (∀ (am : JSVal → String → Bool) (mk st jx : List (String × Int)) vendor,
      TypeScriptCompiler.construct noTsconfig am mk st jx
          (some { conventions := some { vendor := vendor } })
        = Except.ok { options := normalizedBaseOpts, isIgnored := am vendor,
                      ignoreAllErrors := false, ignoreErrors := none,
                      pattern := none, targetExtension := none }) := by
  refine ⟨?_, ?_, ?_, ?_⟩
  · intro root h
    simp [getTsconfig, h]
  · intro s hs h
    cases hjs : jsTruthy (JSVal.str s) <;> simp [getTsconfig, hjs, h]
  · intro config p s hp hroot h
    simp [getTSconfig, hp, hroot, h, exceptOkBind]
  · intro am mk st jx vendor
    rfl

/-- Witness for C7 (amended claim) at concrete inputs. -/
theorem tsconfig_absorbed_witness :
    getTsconfig noTsconfig JSVal.undef = Except.ok (JSVal.obj []) ∧
    getTsconfig noTsconfig (JSVal.str "/r") = Except.ok (JSVal.obj []) ∧
    getTSconfig noTsconfig
        { plugins := some {}, paths := some { root := JSVal.str "/r" },
          conventions := some { vendor := JSVal.str "v" } }
      = Except.ok (JSVal.obj []) := by
  have h := tsconfig_absorbed noTsconfig
  exact ⟨h.1 JSVal.undef rfl, h.2.1 "/r" (by decide) rfl,
    h.2.2.1 _ { root := JSVal.str "/r" } "/r" rfl rfl rfl⟩

/-! ### C8 -/

/-- C8 (amended): for identical adapter state the two compile variants are
behaviorally identical aside from the calling convention — with the throw
variant running the spec-modelled `transpileModule`, every input file yields
the same pass-through, the same success object, the same joined diagnostic
failure string, or the same propagated error.  (Over every configuration the
claim as stated fails, because the constructors read different plugin keys —
see the counterexample.) -/
theorem compile_variants_equivalent (self : TypeScriptCompiler) (ts : Transpiler)
    (f : FileRecord) :
    self.compileT (transpileModule ts) f = self.compile ts f := by
  by_cases hig : self.isIgnored f.path
  · simp [TypeScriptCompiler.compile, TypeScriptCompiler.compileT, hig]
  · cases hts : ts f.data f.path with
    | error e =>
      rw [compile_of_error self ts f e hts (by simpa using hig),
        compileT_of_error self (transpileModule ts) f e
          (by unfold transpileModule; rw [hts]; rfl) (by simpa using hig)]
    | ok out =>
      rw [compile_of_ok self ts f out hts (by simpa using hig),
        compileT_of_ok self (transpileModule ts) f _
          (transpileModule_of_ok ts f.data f.path out hts) (by simpa using hig)]
      rfl

/-- A brunch config whose plugin options sit under `plugins.typescript`, the
key only the throw-variant constructor reads. -/
def typescriptKeyConfig : BrunchConfig :=
  { plugins := some { typescript := JSVal.obj [("ignoreErrors", JSVal.bool true)] },
    paths := some { root := JSVal.str "/p" },
    conventions := some { vendor := JSVal.str "v" } }

/-- Counterexample for C8: for the same configuration and the same input file
the two variants behave differently — the promise variant rejects with the
joined diagnostic string while the throw variant, which reads
`plugins.typescript` and therefore sees `ignoreErrors: true`, succeeds. -/
theorem compile_variants_counterexample :
    ((TypeScriptCompiler.construct noTsconfig (fun _ _ => false) [] [] []
        (some typescriptKeyConfig)).map
      (fun a => a.compile (constTranspiler diag9999Out) fileW)
      = Except.ok (CompileOutcome.fail "Error 9999: m9999 (No line map)")) ∧
    ((TypeScriptCompiler.constructT noTsconfig (fun _ _ => false) [] [] []
        (some typescriptKeyConfig)).map
      (fun a => a.compileT (transpileModule (constTranspiler diag9999Out)) fileW)
      = Except.ok (CompileOutcome.ok { data := "var x;\n", map := none })) := by
  constructor
  · rfl
  · rfl

/-! ### C10 -/

theorem finishConstruction_no_conventions (am : JSVal → String → Bool)
    (options : JSVal) (targetExt : Option String) (opts : JSVal)
    (hig : ∀ ig, jsGetField options "ignore" = Except.ok ig → jsTruthy ig = false) :
    ∀ a, finishConstruction am options none targetExt opts ≠ Except.ok a := by
  intro a h
  unfold finishConstruction at h
  cases hgf : jsGetField options "ignore" with
  | error e =>
    rw [hgf, exceptErrorBind] at h
    exact Except.noConfusion h
  | ok ig =>
    rw [hgf, exceptOkBind] at h
    have hf := hig ig hgf
    rw [hf] at h
    simp [exceptErrorBind] at h

/-- C10: constructing the adapter with an empty configuration object (or with
the argument omitted) throws rather than yielding an adapter with defaults:
with no truthy `ignore` option the promise variant unconditionally
dereferences `config.conventions.vendor`, so construction succeeds only when
`config.conventions` exists; the throw variant additionally requires
`config.plugins` and `config.paths` to exist. -/
theorem construction_requires_conventions (readTs : TsconfigReader)
    (am : JSVal → String → Bool) (mk st jx : List (String × Int)) :
    (TypeScriptCompiler.construct readTs am mk st jx none
      = Except.error "TypeError: Cannot read properties of undefined") ∧
    (TypeScriptCompiler.construct readTs am mk st jx (some {})
      = Except.error "TypeError: Cannot read properties of undefined") ∧
    (∀ config : BrunchConfig, config.conventions = none →
      (∀ ig, jsGetField (pluginOptionsOf config) "ignore" = Except.ok ig →
        jsTruthy ig = false) →
      ∀ a, TypeScriptCompiler.construct readTs am mk st jx (some config)
        ≠ Except.ok a) ∧
    (TypeScriptCompiler.constructT readTs am mk st jx none
      = Except.error "TypeError: Cannot read properties of undefined") ∧
    (∀ config : BrunchConfig, config.plugins = none →
      TypeScriptCompiler.constructT readTs am mk st jx (some config)
        = Except.error "TypeError: Cannot read properties of undefined") ∧
    (∀ (config : BrunchConfig) (p : Plugins), config.plugins = some p →
      config.paths = none →
      ∀ a, TypeScriptCompiler.constructT readTs am mk st jx (some config)
        ≠ Except.ok a) := by
  refine ⟨rfl, rfl, ?_, rfl, ?_, ?_⟩
  · intro config hconv hig a hcon
    simp only [TypeScriptCompiler.construct] at hcon
    cases h1 : getTsconfig readTs (rootArgOf config) with
    | error e =>
      rw [h1, exceptErrorBind] at hcon
      exact Except.noConfusion hcon
    | ok tsOpts =>
      rw [h1, exceptOkBind] at hcon
      cases h2 : overlayOptions (pluginOptionsOf config) tsOpts with
      | error e =>
        rw [h2, exceptErrorBind] at hcon
        exact Except.noConfusion hcon
      | ok opts1 =>
        rw [h2, exceptOkBind] at hcon
        cases h3 : normalizeOptions mk st jx config.sourceMaps opts1 with
        | error e =>
          rw [h3, exceptErrorBind] at hcon
          exact Except.noConfusion hcon
        | ok opts2 =>
          rw [h3, exceptOkBind] at hcon
          rw [hconv] at hcon
          exact finishConstruction_no_conventions am (pluginOptionsOf config)
            none opts2 hig a hcon
  · intro config hplug
    simp only [TypeScriptCompiler.constructT, hplug, exceptOkBind, exceptErrorBind]
  · intro config p hplug hpaths a hcon
    simp only [TypeScriptCompiler.constructT, hplug, exceptOkBind] at hcon
    have hg : getTSconfig readTs config
        = Except.error "TypeError: Cannot read properties of undefined" := by
      unfold getTSconfig
      rw [hpaths]
      rfl
    rw [hg, exceptErrorBind] at hcon
    exact Except.noConfusion hcon

/-- A config with plugin options and paths but no `conventions` object. -/
def conventionlessConfig : BrunchConfig :=
  { plugins := some { brunchTypescript := JSVal.obj [] },
    paths := some { root := JSVal.str "/p" } }

/-- Witness for C10 at concrete configurations. -/
theorem construction_requires_conventions_witness :
    (TypeScriptCompiler.construct noTsconfig (fun _ _ => false) [] [] [] none
      = Except.error "TypeError: Cannot read properties of undefined") ∧
    TypeScriptCompiler.construct noTsconfig (fun _ _ => false) [] [] []
        (some conventionlessConfig) ≠ Except.ok plainAdapter ∧
    TypeScriptCompiler.constructT noTsconfig (fun _ _ => false) [] [] []
        (some noPathsConfig) ≠ Except.ok plainAdapter := by
  have h := construction_requires_conventions noTsconfig (fun _ _ => false) [] [] []
  exact ⟨h.1,
    h.2.2.1 conventionlessConfig rfl (fun ig hg => by cases hg; rfl) plainAdapter,
    h.2.2.2.2.2 noPathsConfig {} rfl rfl plainAdapter⟩
